import Mathlib

/-!
Verification of the cache simulator (`cache_sim.cpp`).

The file shallowly embeds the core of the simulator:

* `FullyAssocLRU` — the fully-associative LRU reference cache used as the
  miss-classification oracle (`struct FullyAssocLRU`);
* `SetState` — one cache set with LRU/FIFO replacement (`struct Set`);
* `Cache` with `Cache.decompose`, `Cache.access`, `Cache.run` — the main
  simulator state machine (`struct Cache`);
* `mkCache` — the constructor `Cache::Cache`, including its C++ evaluation
  order: the member-initializer list (which computes `fa_sim((int)(cs/bs))`,
  i.e. the division `cache_size / block_size`) runs before the body's
  validity checks, so `block_size == 0` reaches a division by zero before
  the `block_size must be > 0` throw can fire.  Arithmetic that C++ leaves
  undefined (division/modulo by zero) is surfaced as an explicit
  `CtorResult.undefinedBehavior` value.

Modelling conventions:

* `u64` values are `Nat`; every operation used (`>>`, `&`-mask, `%`, `/`)
  agrees with the C++ semantics for all inputs below `2 ^ 64`, which is the
  whole domain of the C++ functions.
* The C++ `list<u64>` order lists (front = oldest, back = newest) become
  `List Nat`; the auxiliary `unordered_map pos` / `unordered_set present`
  structures are pure O(1) indexes of the very same order list (the code
  keeps them in exact sync with `order`), so membership in the embedded
  `order` list is the faithful translation of `pos.find`/`present.find`.
  The order lists never contain duplicates (insertions are guarded by
  membership tests), so `List.erase` models erasing a tag's unique node.
* `(int)round(log2(n))` is modelled by `roundLog2`, the exact rounding of
  the real log2; IEEE double `log2` is exact on powers of two and agrees
  with the exact value on every geometry exercised here.
-/

set_option maxHeartbeats 1000000

/-- Fuel-driven floor of the base-2 logarithm (structurally recursive so
that the kernel can evaluate it on literals). -/
def log2aux : Nat → Nat → Nat
  | 0, _ => 0
  | fuel + 1, n => if 2 ≤ n then log2aux fuel (n / 2) + 1 else 0

/-- Floor of log2, `log2floor n = Nat.log2 n` for all `n`. -/
def log2floor (n : Nat) : Nat :=
  log2aux n n

/-- Models the C++ `(int)round(log2(n))`: round the real `log2 n` to the
nearest integer.  Rounding up happens exactly when `log2 n ≥ ⌊log2 n⌋ + 1/2`,
i.e. when `n ^ 2 ≥ 2 ^ (2 * ⌊log2 n⌋ + 1)` (the boundary is irrational, so
there are no ties). -/
def roundLog2 (n : Nat) : Nat :=
  if n ≤ 1 then 0
  else if 2 ^ (2 * log2floor n + 1) ≤ n * n then log2floor n + 1
  else log2floor n

/-- One cache set (`struct Set` in `cache_sim.cpp`): `assoc` ways, LRU or
FIFO replacement, `order` the resident tags from oldest (front) to newest
(back).  The C++ `pos` map (LRU) and `present` set (FIFO) are O(1) indexes
of `order` and are represented by membership in `order`. -/
structure SetState where
  assoc : Nat
  isLRU : Bool
  order : List Nat
  deriving DecidableEq

/-- `Set::contains`. -/
def SetState.contains (s : SetState) (tag : Nat) : Bool :=
  s.order.contains tag

/-- `Set::touch`: no-op under FIFO or when the tag is absent; under LRU it
moves the resident tag to the newest (back) position. -/
def SetState.touch (s : SetState) (tag : Nat) : SetState :=
  if !s.isLRU then s
  else if s.order.contains tag then { s with order := s.order.erase tag ++ [tag] }
  else s

/-- `Set::insert`: if present, LRU touches (FIFO leaves alone); otherwise
append at the newest position, evicting the oldest entry when the set is
full.  The `[]` eviction arm corresponds to `order.pop_front()` on an empty
list, which is reachable in C++ only when `assoc = 0` (and is UB there). -/
def SetState.insert (s : SetState) (tag : Nat) : SetState :=
  if s.contains tag then
    if s.isLRU then s.touch tag else s
  else if s.order.length < s.assoc then
    { s with order := s.order ++ [tag] }
  else
    match s.order with
    | [] => { s with order := [tag] }
    | _ :: rest => { s with order := rest ++ [tag] }

/-- The per-set effect of one simulator access that reaches this set: a hit
touches (the touch itself is a no-op under FIFO), a miss inserts.  Used to
state the replacement-ordering scenarios. -/
def SetState.simAccess (s : SetState) (tag : Nat) : SetState :=
  if s.contains tag then s.touch tag else s.insert tag

/-- Fold `simAccess` over a list of tags. -/
def SetState.simAccessList (s : SetState) (tags : List Nat) : SetState :=
  tags.foldl SetState.simAccess s

/-- The fully-associative LRU reference cache (`struct FullyAssocLRU`),
keyed by block id; `capacity` is the C++ `int capacity` (the `(int)` cast of
`cache_size / block_size` is the identity on every realistic geometry). -/
structure FullyAssocLRU where
  capacity : Nat
  order : List Nat
  deriving DecidableEq

/-- `FullyAssocLRU::access`: returns the updated oracle and `true` on hit.
On a hit the block moves to the newest position; on a miss the oldest entry
is evicted when the oracle is at (or beyond) capacity, then the block is
appended. -/
def FullyAssocLRU.access (f : FullyAssocLRU) (block_addr : Nat) : FullyAssocLRU × Bool :=
  if f.order.contains block_addr then
    ({ f with order := f.order.erase block_addr ++ [block_addr] }, true)
  else if f.capacity ≤ f.order.length ∧ 0 < f.capacity then
    ({ f with order := f.order.tail ++ [block_addr] }, false)
  else
    ({ f with order := f.order ++ [block_addr] }, false)

/-- The simulator state (`struct Cache`): geometry, the per-set states, the
fully-associative oracle, the statistics counters and the set of block ids
ever seen. -/
structure Cache where
  cache_size : Nat
  block_size : Nat
  assoc : Nat
  policy : String
  num_sets : Nat
  offset_bits : Nat
  index_bits : Nat
  tag_bits : Int
  sets : List SetState
  fa_sim : FullyAssocLRU
  accesses : Nat
  hits : Nat
  misses : Nat
  miss_compulsory : Nat
  miss_capacity : Nat
  miss_conflict : Nat
  seen_blocks : List Nat
  deriving DecidableEq

/-- The C++ `policy == "LRU" || policy == "lru"` test. -/
def isLRUpol (pol : String) : Bool :=
  pol == "LRU" || pol == "lru"

/-- `sets[i]` with the out-of-range case totalized to an empty 0-way set
(in C++ an out-of-range `operator[]` is undefined behavior; it is reachable
only through the non-power-of-two geometries discussed at `c6_code_behavior`). -/
def Cache.setAt (c : Cache) (i : Nat) : SetState :=
  c.sets.getD i ⟨0, true, []⟩

/-- `Cache::decompose`: block id is the address shifted right by
`offset_bits`; the set index masks the low `index_bits` of the block id
(`block_addr & ((1ULL << index_bits) - 1)`, i.e. `% 2 ^ index_bits`), or 0
when there is a single set; the tag is the block id shifted right by
`index_bits`.  Note that the raw address is used unmasked: nothing truncates
it to `addr_bits`. -/
def Cache.decompose (c : Cache) (addr : Nat) : Nat × Nat :=
  (addr >>> c.offset_bits >>> c.index_bits,
   if c.num_sets > 1 then (addr >>> c.offset_bits) % 2 ^ c.index_bits else 0)

/-- `Cache::access`: one step of the simulator.  Returns the new state and
the C++ return value `pair<bool, string>` (hit flag, classification). -/
def Cache.access (c : Cache) (addr : Nat) : Cache × (Bool × String) :=
  let block_addr := addr >>> c.offset_bits
  let tag := (c.decompose addr).1
  let idx := (c.decompose addr).2
  let first_time := !(c.seen_blocks.contains block_addr)
  let seen' := if first_time then block_addr :: c.seen_blocks else c.seen_blocks
  if (c.setAt idx).contains tag then
    ({ c with
        accesses := c.accesses + 1
        hits := c.hits + 1
        seen_blocks := seen'
        sets := if isLRUpol c.policy then c.sets.set idx ((c.setAt idx).touch tag) else c.sets
        fa_sim := (c.fa_sim.access block_addr).1 },
      (true, "HIT"))
  else
    let base : Cache :=
      { c with
          accesses := c.accesses + 1
          misses := c.misses + 1
          seen_blocks := seen'
          sets := c.sets.set idx ((c.setAt idx).insert tag)
          fa_sim := (c.fa_sim.access block_addr).1 }
    if first_time then
      ({ base with miss_compulsory := c.miss_compulsory + 1 }, (false, "MISS-Compulsory"))
    else if (c.fa_sim.access block_addr).2 then
      ({ base with miss_conflict := c.miss_conflict + 1 }, (false, "MISS-Conflict"))
    else
      ({ base with miss_capacity := c.miss_capacity + 1 }, (false, "MISS-Capacity"))

/-- Feed a list of addresses through the simulator, collecting the per-access
return values (this is the `while (getline...) sim.access(addr)` loop of
`main`, with the I/O stripped away). -/
def Cache.run (c : Cache) : List Nat → Cache × List (Bool × String)
  | [] => (c, [])
  | a :: rest =>
    let r := c.access a
    let rest' := r.1.run rest
    (rest'.1, r.2 :: rest'.2)

/-- Outcome of `Cache::Cache`: a constructed simulator, a thrown
`runtime_error` (configuration error), or C++ undefined behavior (the
division/modulo by zero reachable from degenerate arguments). -/
inductive CtorResult where
  | ok (c : Cache)
  | configError (msg : String)
  | undefinedBehavior (msg : String)
  deriving DecidableEq

/-- `Cache::Cache(cs, bs, a, pol, addr_bits)`.  C++ initializes the members
in declaration order before the body runs, so `fa_sim((int)(cs / bs))`
divides by zero when `bs = 0` before the body's `block_size == 0` check;
likewise `cs % (bs * a)` is a modulo by zero when `a = 0`. -/
def mkCache (cs bs a : Nat) (pol : String) (addr_bits : Nat) : CtorResult :=
  if bs = 0 then
    .undefinedBehavior "division by zero: cache_size / block_size in the fa_sim member initializer"
  else if bs * a = 0 then
    .undefinedBehavior "modulo by zero: cache_size % (block_size * assoc)"
  else if cs % (bs * a) ≠ 0 then
    .configError "cache_size must be divisible by (block_size * assoc)"
  else
    .ok { cache_size := cs
          block_size := bs
          assoc := a
          policy := pol
          num_sets := cs / (bs * a)
          offset_bits := roundLog2 bs
          index_bits := if cs / (bs * a) > 1 then roundLog2 (cs / (bs * a)) else 0
          tag_bits := (addr_bits : Int) - (if cs / (bs * a) > 1 then roundLog2 (cs / (bs * a)) else 0) - roundLog2 bs
          sets := List.replicate (cs / (bs * a)) ⟨a, isLRUpol pol, []⟩
          fa_sim := ⟨cs / bs, []⟩
          accesses := 0
          hits := 0
          misses := 0
          miss_compulsory := 0
          miss_capacity := 0
          miss_conflict := 0
          seen_blocks := [] }

/-- Project a successful construction. -/
def ctorCache : CtorResult → Option Cache
  | .ok c => some c
  | _ => none

/-- The statistics invariants of §8 of the specification. -/
def statsOK (c : Cache) : Prop :=
  c.hits + c.misses = c.accesses ∧
  c.miss_compulsory + c.miss_conflict + c.miss_capacity = c.misses

/-- Well-formed geometry: one `SetState` per set and a power-of-two set
count matching `index_bits`. -/
def goodGeom (c : Cache) : Prop :=
  c.sets.length = c.num_sets ∧ c.num_sets = 2 ^ c.index_bits

/-- Every tag resident in some set comes from a block id that has been seen:
position `i` holding `tag` means block `tag * 2 ^ index_bits + i` was
referenced before. -/
def seenInv (c : Cache) : Prop :=
  ∀ i tag, tag ∈ (c.setAt i).order → tag * 2 ^ c.index_bits + i ∈ c.seen_blocks

/-- Invariant tying a one-set LRU cache to the fully-associative oracle:
identical contents in identical order, equal capacities, and no conflict
miss ever recorded. -/
def inv4 (c : Cache) : Prop :=
  c.num_sets = 1 ∧ c.index_bits = 0 ∧ c.sets.length = 1 ∧
  (c.setAt 0).isLRU = true ∧ isLRUpol c.policy = true ∧
  (c.setAt 0).assoc = c.fa_sim.capacity ∧ 0 < c.fa_sim.capacity ∧
  (c.setAt 0).order = c.fa_sim.order ∧ c.miss_conflict = 0

/-- A concrete simulator used by several witnesses: the geometry of the
specification's end-to-end scenario (`cache_size` 128, `block_size` 64,
direct-mapped, 2 sets). -/
def cacheA : Cache :=
  { cache_size := 128
    block_size := 64
    assoc := 1
    policy := "LRU"
    num_sets := 2
    offset_bits := 6
    index_bits := 1
    tag_bits := 25
    sets := List.replicate 2 ⟨1, true, []⟩
    fa_sim := ⟨2, []⟩
    accesses := 0
    hits := 0
    misses := 0
    miss_compulsory := 0
    miss_capacity := 0
    miss_conflict := 0
    seen_blocks := [] }

/-- A concrete mid-run state used by a witness: block 5 has been seen and
sits in the oracle but not in the (single) real set, so the next access to
it is a non-compulsory miss with an oracle hit. -/
def cacheW : Cache :=
  { cache_size := 2
    block_size := 1
    assoc := 2
    policy := "LRU"
    num_sets := 1
    offset_bits := 0
    index_bits := 0
    tag_bits := 32
    sets := [⟨2, true, [9]⟩]
    fa_sim := ⟨2, [5]⟩
    accesses := 3
    hits := 0
    misses := 3
    miss_compulsory := 2
    miss_capacity := 1
    miss_conflict := 0
    seen_blocks := [5, 9, 3] }

/-- A concrete single-set LRU simulator (`cache_size` 2, `block_size` 1,
2-way, so `num_sets = 1`), as built by the constructor. -/
def cacheB : Cache :=
  { cache_size := 2
    block_size := 1
    assoc := 2
    policy := "LRU"
    num_sets := 1
    offset_bits := 0
    index_bits := 0
    tag_bits := 32
    sets := List.replicate 1 ⟨2, true, []⟩
    fa_sim := ⟨2, []⟩
    accesses := 0
    hits := 0
    misses := 0
    miss_compulsory := 0
    miss_capacity := 0
    miss_conflict := 0
    seen_blocks := [] }

theorem log2aux_eq_log2 (fuel : Nat) : ∀ n : Nat, n ≤ fuel → log2aux fuel n = Nat.log2 n := by
  induction fuel with
  | zero =>
    intro n hn
    have : n = 0 := Nat.le_zero.mp hn
    subst this
    rw [Nat.log2]
    simp [log2aux]
  | succ f ih =>
    intro n hn
    rw [Nat.log2]
    by_cases h2 : 2 ≤ n
    · have hdiv : n / 2 ≤ f := by omega
      simp only [log2aux, if_pos h2, ih _ hdiv]
    · simp [log2aux, h2]

theorem log2floor_eq_log2 (n : Nat) : log2floor n = Nat.log2 n :=
  log2aux_eq_log2 n n le_rfl

theorem log2floor_two_pow (k : Nat) : log2floor (2 ^ k) = k := by
  rw [log2floor_eq_log2, Nat.log2_eq_log_two, Nat.log_pow one_lt_two]

theorem roundLog2_two_pow (k : Nat) : roundLog2 (2 ^ k) = k := by
  unfold roundLog2
  rcases Nat.eq_zero_or_pos k with hk | hk
  · subst hk; simp
  · have h1 : ¬ 2 ^ k ≤ 1 := by
      have : (2:Nat) ^ 1 ≤ 2 ^ k := Nat.pow_le_pow_right (by norm_num) hk
      omega
    rw [if_neg h1, log2floor_two_pow]
    have hlt : 2 ^ k * 2 ^ k < 2 ^ (2 * k + 1) := by
      rw [← pow_add]
      exact Nat.pow_lt_pow_right one_lt_two (by omega)
    rw [if_neg (by omega)]

theorem getD_set_self {α : Type} (l : List α) (i : Nat) (s d : α) (h : i < l.length) :
    (l.set i s).getD i d = s := by
  rw [List.getD_eq_getElem _ _ (by simpa using h), List.getElem_set_self]

theorem getD_set_ne {α : Type} (l : List α) (i j : Nat) (s d : α) (h : i ≠ j) :
    (l.set i s).getD j d = l.getD j d := by
  rw [List.getD_eq_getElem?_getD, List.getElem?_set_ne h, ← List.getD_eq_getElem?_getD]

theorem getD_replicate {α : Type} (n k : Nat) (x d : α) :
    (List.replicate n x).getD k d = if k < n then x else d := by
  by_cases h : k < n
  · rw [List.getD_eq_getElem _ _ (by simpa using h), List.getElem_replicate, if_pos h]
  · rw [List.getD_eq_default _ _ (by simpa using Nat.le_of_not_lt h), if_neg h]

theorem touch_isLRU (s : SetState) (t : Nat) : (s.touch t).isLRU = s.isLRU := by
  unfold SetState.touch
  split_ifs <;> rfl

theorem touch_assoc (s : SetState) (t : Nat) : (s.touch t).assoc = s.assoc := by
  unfold SetState.touch
  split_ifs <;> rfl

theorem insert_isLRU (s : SetState) (t : Nat) : (s.insert t).isLRU = s.isLRU := by
  unfold SetState.insert
  split_ifs
  · rw [touch_isLRU]
  · rfl
  · rfl
  · cases s.order <;> rfl

theorem insert_assoc (s : SetState) (t : Nat) : (s.insert t).assoc = s.assoc := by
  unfold SetState.insert
  split_ifs
  · rw [touch_assoc]
  · rfl
  · rfl
  · cases s.order <;> rfl

theorem touch_order_of_lru_contains {s : SetState} {t : Nat} (hl : s.isLRU = true)
    (hc : s.order.contains t = true) :
    (s.touch t).order = s.order.erase t ++ [t] := by
  have hm : t ∈ s.order := List.elem_iff.mp hc
  unfold SetState.touch
  rw [hl]
  simp [hm]

theorem insert_order_append {s : SetState} {t : Nat} (hc : s.contains t = false)
    (hlen : s.order.length < s.assoc) :
    (s.insert t).order = s.order ++ [t] := by
  unfold SetState.insert
  rw [hc]
  simp [hlen]

theorem insert_order_evict {s : SetState} {t : Nat} (hc : s.contains t = false)
    (hlen : ¬ s.order.length < s.assoc) :
    (s.insert t).order = s.order.tail ++ [t] := by
  unfold SetState.insert
  rw [hc]
  simp only [Bool.false_eq_true, if_false, if_neg hlen]
  cases s.order <;> rfl

theorem fa_access_capacity (f : FullyAssocLRU) (b : Nat) :
    (f.access b).1.capacity = f.capacity := by
  unfold FullyAssocLRU.access
  split_ifs <;> rfl

theorem fa_access_hit {f : FullyAssocLRU} {b : Nat} (hc : f.order.contains b = true) :
    f.access b = ({ f with order := f.order.erase b ++ [b] }, true) := by
  have hm : b ∈ f.order := List.elem_iff.mp hc
  unfold FullyAssocLRU.access
  simp [hm]

theorem fa_access_miss_evict {f : FullyAssocLRU} {b : Nat} (hc : f.order.contains b = false)
    (hcap : f.capacity ≤ f.order.length ∧ 0 < f.capacity) :
    f.access b = ({ f with order := f.order.tail ++ [b] }, false) := by
  unfold FullyAssocLRU.access
  rw [hc]
  simp [hcap]

theorem fa_access_miss_append {f : FullyAssocLRU} {b : Nat} (hc : f.order.contains b = false)
    (hcap : ¬ (f.capacity ≤ f.order.length ∧ 0 < f.capacity)) :
    f.access b = ({ f with order := f.order ++ [b] }, false) := by
  unfold FullyAssocLRU.access
  rw [hc]
  simp [hcap]

theorem mem_touch {s : SetState} {t x : Nat} (h : x ∈ (s.touch t).order) : x ∈ s.order := by
  unfold SetState.touch at h
  split_ifs at h with h1 h2
  · exact h
  · simp only [List.mem_append, List.mem_singleton] at h
    rcases h with h | h
    · exact List.mem_of_mem_erase h
    · subst h
      exact List.elem_iff.mp h2
  · exact h

theorem mem_insert {s : SetState} {t x : Nat} (h : x ∈ (s.insert t).order) :
    x ∈ s.order ∨ x = t := by
  unfold SetState.insert at h
  split_ifs at h with h1 h2 h3
  · exact Or.inl (mem_touch h)
  · exact Or.inl h
  · simp only [List.mem_append, List.mem_singleton] at h
    tauto
  · rcases hs : s.order with _ | ⟨y, rest⟩
    · rw [hs] at h
      simp at h
      exact Or.inr h
    · rw [hs] at h
      simp only [List.mem_append, List.mem_singleton] at h
      rcases h with h | h
      · exact Or.inl (hs ▸ List.mem_cons_of_mem _ h)
      · exact Or.inr h

theorem access_geom (c : Cache) (addr : Nat) :
    (c.access addr).1.num_sets = c.num_sets ∧
    (c.access addr).1.offset_bits = c.offset_bits ∧
    (c.access addr).1.index_bits = c.index_bits ∧
    (c.access addr).1.policy = c.policy ∧
    (c.access addr).1.fa_sim.capacity = c.fa_sim.capacity ∧
    (c.access addr).1.sets.length = c.sets.length := by
  unfold Cache.access
  by_cases h1 : (c.setAt (c.decompose addr).2).contains (c.decompose addr).1 = true <;>
  by_cases h2 : (addr >>> c.offset_bits) ∈ c.seen_blocks <;>
  by_cases h3 : (c.fa_sim.access (addr >>> c.offset_bits)).2 = true <;>
  by_cases h4 : isLRUpol c.policy = true <;>
    simp [h1, h2, h3, h4, fa_access_capacity, List.length_set]

theorem run_geom (t : List Nat) : ∀ c : Cache,
    (c.run t).1.num_sets = c.num_sets ∧
    (c.run t).1.offset_bits = c.offset_bits ∧
    (c.run t).1.index_bits = c.index_bits ∧
    (c.run t).1.policy = c.policy ∧
    (c.run t).1.fa_sim.capacity = c.fa_sim.capacity ∧
    (c.run t).1.sets.length = c.sets.length := by
  induction t with
  | nil => intro c; simp [Cache.run]
  | cons a rest ih =>
    intro c
    obtain ⟨g1, g2, g3, g4, g5, g6⟩ := access_geom c a
    obtain ⟨r1, r2, r3, r4, r5, r6⟩ := ih (c.access a).1
    simp only [Cache.run]
    exact ⟨r1.trans g1, r2.trans g2, r3.trans g3, r4.trans g4, r5.trans g5, r6.trans g6⟩

theorem access_stats (c : Cache) (addr : Nat) (h : statsOK c) : statsOK (c.access addr).1 := by
  obtain ⟨hs1, hs2⟩ := h
  unfold statsOK Cache.access
  by_cases h1 : (c.setAt (c.decompose addr).2).contains (c.decompose addr).1 = true <;>
  by_cases h2 : (addr >>> c.offset_bits) ∈ c.seen_blocks <;>
  by_cases h3 : (c.fa_sim.access (addr >>> c.offset_bits)).2 = true <;>
  by_cases h4 : isLRUpol c.policy = true <;>
    simp [h1, h2, h3, h4] <;> omega

theorem run_stats (t : List Nat) : ∀ c : Cache, statsOK c → statsOK (c.run t).1 := by
  induction t with
  | nil => intro c h; simpa [Cache.run] using h
  | cons a rest ih =>
    intro c h
    simp only [Cache.run]
    exact ih _ (access_stats c a h)

theorem access_seen (c : Cache) (addr b : Nat) :
    b ∈ (c.access addr).1.seen_blocks ↔
      b = addr >>> c.offset_bits ∨ b ∈ c.seen_blocks := by
  unfold Cache.access
  by_cases h1 : (c.setAt (c.decompose addr).2).contains (c.decompose addr).1 = true <;>
  by_cases h2 : (addr >>> c.offset_bits) ∈ c.seen_blocks <;>
  by_cases h3 : (c.fa_sim.access (addr >>> c.offset_bits)).2 = true <;>
  by_cases h4 : isLRUpol c.policy = true <;>
    simp [h1, h2, h3, h4] <;> first | tauto | exact fun h => h ▸ h2

theorem run_seen (t : List Nat) : ∀ (c : Cache) (b : Nat),
    b ∈ (c.run t).1.seen_blocks ↔
      b ∈ t.map (fun x => x >>> c.offset_bits) ∨ b ∈ c.seen_blocks := by
  induction t with
  | nil => intro c b; simp [Cache.run]
  | cons a rest ih =>
    intro c b
    simp only [Cache.run, List.map_cons, List.mem_cons]
    rw [ih, access_seen]
    have hob : (c.access a).1.offset_bits = c.offset_bits := (access_geom c a).2.1
    rw [hob]
    tauto

theorem mkCache_ok (cs bs a : Nat) (pol : String) (w : Nat) (c : Cache)
    (h : mkCache cs bs a pol w = CtorResult.ok c) :
    bs ≠ 0 ∧ a ≠ 0 ∧ cs % (bs * a) = 0 ∧
    c = { cache_size := cs
          block_size := bs
          assoc := a
          policy := pol
          num_sets := cs / (bs * a)
          offset_bits := roundLog2 bs
          index_bits := if cs / (bs * a) > 1 then roundLog2 (cs / (bs * a)) else 0
          tag_bits := (w : Int) - (if cs / (bs * a) > 1 then roundLog2 (cs / (bs * a)) else 0) - roundLog2 bs
          sets := List.replicate (cs / (bs * a)) ⟨a, isLRUpol pol, []⟩
          fa_sim := ⟨cs / bs, []⟩
          accesses := 0
          hits := 0
          misses := 0
          miss_compulsory := 0
          miss_capacity := 0
          miss_conflict := 0
          seen_blocks := [] } := by
  unfold mkCache at h
  split_ifs at h with h1 h2 h3 h4
  · injection h with h5
    refine ⟨h1, fun ha => h2 (by simp [ha]), by omega, ?_⟩
    simp only [if_pos h4]
    exact h5.symm
  · injection h with h5
    refine ⟨h1, fun ha => h2 (by simp [ha]), by omega, ?_⟩
    simp only [if_neg h4]
    exact h5.symm

theorem decompose_recompose (c : Cache) (addr : Nat)
    (hpow : c.num_sets = 2 ^ c.index_bits) :
    (c.decompose addr).1 * 2 ^ c.index_bits + (c.decompose addr).2 =
      addr >>> c.offset_bits := by
  unfold Cache.decompose
  by_cases h : c.num_sets > 1
  · simp only [if_pos h]
    rw [Nat.shiftRight_eq_div_pow (addr >>> c.offset_bits) c.index_bits, Nat.mul_comm]
    exact Nat.div_add_mod _ _
  · simp only [if_neg h]
    have hpos : 0 < c.num_sets := hpow ▸ Nat.two_pow_pos _
    have hns1 : c.num_sets = 1 := by omega
    have hib : c.index_bits = 0 := by
      by_contra hne
      have : 1 < 2 ^ c.index_bits := Nat.one_lt_two_pow_iff.mpr hne
      omega
    rw [hib]
    simp

theorem decompose_idx_lt (c : Cache) (addr : Nat)
    (hpow : c.num_sets = 2 ^ c.index_bits) :
    (c.decompose addr).2 < c.num_sets := by
  unfold Cache.decompose
  by_cases h : c.num_sets > 1
  · simp only [if_pos h]
    rw [hpow]
    exact Nat.mod_lt _ (Nat.two_pow_pos _)
  · simp only [if_neg h]
    have hpos : 0 < c.num_sets := hpow ▸ Nat.two_pow_pos _
    omega

theorem mkCache_goodGeom (cs bs a : Nat) (pol : String) (w : Nat) (c : Cache)
    (hok : mkCache cs bs a pol w = CtorResult.ok c)
    (hpow : ∃ k, c.num_sets = 2 ^ k) :
    goodGeom c := by
  obtain ⟨-, -, -, rfl⟩ := mkCache_ok cs bs a pol w c hok
  obtain ⟨k, hk⟩ := hpow
  have hk' : cs / (bs * a) = 2 ^ k := hk
  constructor
  · exact List.length_replicate _ _
  · show cs / (bs * a) = 2 ^ (if cs / (bs * a) > 1 then roundLog2 (cs / (bs * a)) else 0)
    rcases Nat.eq_zero_or_pos k with rfl | hkpos
    · rw [hk']
      norm_num
    · have h2 : cs / (bs * a) > 1 := by
        rw [hk']
        exact Nat.one_lt_two_pow_iff.mpr (by omega)
      rw [if_pos h2, hk', roundLog2_two_pow]

theorem mkCache_seenInv (cs bs a : Nat) (pol : String) (w : Nat) (c : Cache)
    (hok : mkCache cs bs a pol w = CtorResult.ok c) :
    seenInv c := by
  obtain ⟨-, -, -, rfl⟩ := mkCache_ok cs bs a pol w c hok
  intro i tag hmem
  exfalso
  unfold Cache.setAt at hmem
  simp only at hmem
  rw [getD_replicate] at hmem
  split at hmem <;> simp at hmem

theorem access_seen_self (c : Cache) (addr : Nat) :
    (addr >>> c.offset_bits) ∈ (c.access addr).1.seen_blocks :=
  (access_seen c addr _).mpr (Or.inl rfl)

theorem access_seen_mono (c : Cache) (addr : Nat) (x : Nat) (h : x ∈ c.seen_blocks) :
    x ∈ (c.access addr).1.seen_blocks :=
  (access_seen c addr x).mpr (Or.inr h)

theorem access_sets_cases (c : Cache) (addr : Nat) :
    (c.access addr).1.sets = c.sets ∨
    (c.access addr).1.sets =
      c.sets.set (c.decompose addr).2
        ((c.setAt (c.decompose addr).2).touch (c.decompose addr).1) ∨
    (c.access addr).1.sets =
      c.sets.set (c.decompose addr).2
        ((c.setAt (c.decompose addr).2).insert (c.decompose addr).1) := by
  unfold Cache.access
  by_cases h1 : (c.setAt (c.decompose addr).2).contains (c.decompose addr).1 = true <;>
  by_cases h2 : (addr >>> c.offset_bits) ∈ c.seen_blocks <;>
  by_cases h3 : (c.fa_sim.access (addr >>> c.offset_bits)).2 = true <;>
  by_cases h4 : isLRUpol c.policy = true <;>
    simp [h1, h2, h3, h4]

theorem access_sets_sub (c : Cache) (addr : Nat) : ∀ i : Nat,
    (c.access addr).1.setAt i = c.setAt i ∨
    (i = (c.decompose addr).2 ∧
      ∀ x, x ∈ ((c.access addr).1.setAt i).order →
        x ∈ (c.setAt i).order ∨ x = (c.decompose addr).1) := by
  intro i
  have hkey : ∀ s' : SetState,
      (∀ x, x ∈ s'.order →
        x ∈ (c.setAt (c.decompose addr).2).order ∨ x = (c.decompose addr).1) →
      (c.access addr).1.sets = c.sets.set (c.decompose addr).2 s' →
      (c.access addr).1.setAt i = c.setAt i ∨
      (i = (c.decompose addr).2 ∧
        ∀ x, x ∈ ((c.access addr).1.setAt i).order →
          x ∈ (c.setAt i).order ∨ x = (c.decompose addr).1) := by
    intro s' hsub hsets
    by_cases hi : i = (c.decompose addr).2
    · refine Or.inr ⟨hi, ?_⟩
      intro x hx
      unfold Cache.setAt at hx
      rw [hsets, hi] at hx
      rw [hi]
      by_cases hlen : (c.decompose addr).2 < c.sets.length
      · rw [getD_set_self _ _ _ _ hlen] at hx
        exact hsub x hx
      · rw [List.set_eq_of_length_le (Nat.le_of_not_lt hlen)] at hx
        exact Or.inl hx
    · refine Or.inl ?_
      unfold Cache.setAt
      rw [hsets]
      exact getD_set_ne _ _ _ _ _ fun heq => hi heq.symm
  rcases access_sets_cases c addr with hsets | hsets | hsets
  · left
    unfold Cache.setAt
    rw [hsets]
  · exact hkey _ (fun x hx => Or.inl (mem_touch hx)) hsets
  · exact hkey _ (fun x hx => mem_insert hx) hsets

theorem access_seenInv (c : Cache) (addr : Nat) (hg : goodGeom c) (hs : seenInv c) :
    seenInv (c.access addr).1 := by
  intro i tag hmem
  have hib : (c.access addr).1.index_bits = c.index_bits := (access_geom c addr).2.2.1
  rw [hib]
  rcases access_sets_sub c addr i with heq | ⟨hi, hsub⟩
  · rw [heq] at hmem
    exact access_seen_mono c addr _ (hs i tag hmem)
  · rcases hsub tag hmem with hold | htag
    · exact access_seen_mono c addr _ (hs _ tag hold)
    · rw [htag, hi, decompose_recompose c addr hg.2]
      exact access_seen_self c addr

theorem access_goodGeom (c : Cache) (addr : Nat) (hg : goodGeom c) :
    goodGeom (c.access addr).1 := by
  obtain ⟨g1, -, g3, -, -, g6⟩ := access_geom c addr
  exact ⟨g6.trans (hg.1.trans g1.symm), g1.trans (hg.2.trans (by rw [g3]))⟩

theorem run_inv (t : List Nat) : ∀ c : Cache, goodGeom c → seenInv c →
    goodGeom (c.run t).1 ∧ seenInv (c.run t).1 := by
  induction t with
  | nil => intro c hg hs; exact ⟨hg, hs⟩
  | cons a rest ih =>
    intro c hg hs
    simp only [Cache.run]
    exact ih _ (access_goodGeom c a hg) (access_seenInv c a hg hs)

theorem access_first_miss (c : Cache) (addr : Nat)
    (hc : (c.setAt (c.decompose addr).2).contains (c.decompose addr).1 = false)
    (hf : (addr >>> c.offset_bits) ∉ c.seen_blocks) :
    (c.access addr).2 = (false, "MISS-Compulsory") := by
  unfold Cache.access
  simp [hc, hf]

/-- Claim C3: for every address sequence processed by a constructed
simulator, after every access the counters satisfy
`hits + misses = accesses` and
`miss_compulsory + miss_conflict + miss_capacity = misses` (every prefix of
a trace is itself a trace, so quantifying over all traces covers every
intermediate state). -/
theorem c3_stats_invariant (cs bs a : Nat) (pol : String) (w : Nat) (c : Cache)
    (t : List Nat) (hok : mkCache cs bs a pol w = CtorResult.ok c) :
    (c.run t).1.hits + (c.run t).1.misses = (c.run t).1.accesses ∧
    (c.run t).1.miss_compulsory + (c.run t).1.miss_conflict + (c.run t).1.miss_capacity
      = (c.run t).1.misses := by
  have h0 : statsOK c := by
    obtain ⟨-, -, -, rfl⟩ := mkCache_ok cs bs a pol w c hok
    exact ⟨rfl, rfl⟩
  exact run_stats t c h0

/-- Witness for C3: the concrete geometry 128/64/1-way over the trace
`[0, 64, 128]`. -/
theorem c3_witness :
    (cacheA.run [0, 64, 128]).1.hits + (cacheA.run [0, 64, 128]).1.misses
        = (cacheA.run [0, 64, 128]).1.accesses ∧
    (cacheA.run [0, 64, 128]).1.miss_compulsory + (cacheA.run [0, 64, 128]).1.miss_conflict
        + (cacheA.run [0, 64, 128]).1.miss_capacity = (cacheA.run [0, 64, 128]).1.misses :=
  c3_stats_invariant 128 64 1 "LRU" 32 cacheA [0, 64, 128] (by decide)

/-- Claim C2: on a constructed simulator with a power-of-two set count, an
access whose block id has never been seen is a miss classified
MISS-Compulsory, regardless of the oracle; the second conjunct identifies
"never been seen" with "not referenced by any earlier access of the run". -/
theorem c2_first_reference_compulsory (cs bs a : Nat) (pol : String) (w : Nat)
    (c0 : Cache) (t : List Nat) (addr : Nat)
    (hok : mkCache cs bs a pol w = CtorResult.ok c0)
    (hpow : ∃ k, c0.num_sets = 2 ^ k)
    (hnew : (addr >>> c0.offset_bits) ∉ (c0.run t).1.seen_blocks) :
    ((c0.run t).1.access addr).2 = (false, "MISS-Compulsory") ∧
    ∀ b : Nat, b ∈ (c0.run t).1.seen_blocks ↔ b ∈ t.map (fun x => x >>> c0.offset_bits) := by
  have hgg : goodGeom c0 := mkCache_goodGeom cs bs a pol w c0 hok hpow
  have hsi : seenInv c0 := mkCache_seenInv cs bs a pol w c0 hok
  obtain ⟨hgT, hsT⟩ := run_inv t c0 hgg hsi
  have hob : (c0.run t).1.offset_bits = c0.offset_bits := (run_geom t c0).2.1
  constructor
  · apply access_first_miss
    · by_contra hcon
      rw [Bool.not_eq_false] at hcon
      have hmem := List.elem_iff.mp hcon
      have hin := hsT _ _ hmem
      rw [decompose_recompose _ addr hgT.2, hob] at hin
      exact hnew hin
    · rw [hob]
      exact hnew
  · intro b
    have hchar := run_seen t c0 b
    have h0 : c0.seen_blocks = [] := by
      obtain ⟨-, -, -, rfl⟩ := mkCache_ok cs bs a pol w c0 hok
      rfl
    rw [h0] at hchar
    simpa using hchar

/-- Witness for C2: on the 128/64/1-way geometry, after the trace `[0]` the
block of address 64 is unseen and its access is a compulsory miss. -/
theorem c2_witness :
    ((cacheA.run [0]).1.access 64).2 = (false, "MISS-Compulsory") :=
  (c2_first_reference_compulsory 128 64 1 "LRU" 32 cacheA [0] 64 (by decide) ⟨1, rfl⟩
    (by decide)).1

/-- Claim C10: for a constructed geometry whose set count is a power of two,
the decomposed set index is always below `num_sets` (hence within the
bounds of the `sets` vector), equals the block id modulo `num_sets`, and is
0 for a single-set cache. -/
theorem c10_set_index_in_bounds (cs bs a : Nat) (pol : String) (w : Nat) (c : Cache)
    (hok : mkCache cs bs a pol w = CtorResult.ok c)
    (hpow : ∃ k, c.num_sets = 2 ^ k) (addr : Nat) :
    (c.decompose addr).2 < c.num_sets ∧
    (c.decompose addr).2 = (addr >>> c.offset_bits) % c.num_sets ∧
    (c.num_sets = 1 → (c.decompose addr).2 = 0) ∧
    (c.decompose addr).2 < c.sets.length := by
  have hg := mkCache_goodGeom cs bs a pol w c hok hpow
  have hlt := decompose_idx_lt c addr hg.2
  refine ⟨hlt, ?_, ?_, by rw [hg.1]; exact hlt⟩
  · unfold Cache.decompose
    by_cases h : c.num_sets > 1
    · simp only [if_pos h]
      rw [hg.2]
    · simp only [if_neg h]
      have hpos : 0 < c.num_sets := hg.2 ▸ Nat.two_pow_pos _
      have hone : c.num_sets = 1 := by omega
      rw [hone, Nat.mod_one]
  · intro h1
    unfold Cache.decompose
    simp [h1]

/-- Witness for C10: the 128/64/1-way geometry at address 999. -/
theorem c10_witness :
    (cacheA.decompose 999).2 < cacheA.num_sets ∧
    (cacheA.decompose 999).2 = (999 >>> cacheA.offset_bits) % cacheA.num_sets ∧
    (cacheA.num_sets = 1 → (cacheA.decompose 999).2 = 0) ∧
    (cacheA.decompose 999).2 < cacheA.sets.length :=
  c10_set_index_in_bounds 128 64 1 "LRU" 32 cacheA (by decide) ⟨1, rfl⟩ 999

/-- Claim C1: the reference cache is constructed empty with capacity
`cache_size / block_size`; every access (hit or miss) advances the oracle by
exactly one `FullyAssocLRU.access` on the access's block id; and a miss
whose block has been seen before is classified MISS-Conflict exactly when
that oracle access reports a hit, MISS-Capacity exactly when it reports a
miss. -/
theorem c1_conflict_iff_oracle_hit (cs bs a : Nat) (pol : String) (w : Nat)
    (c0 c : Cache) (addr : Nat)
    (hok : mkCache cs bs a pol w = CtorResult.ok c0) :
    c0.fa_sim = ⟨cs / bs, []⟩ ∧
    (c.access addr).1.fa_sim = (c.fa_sim.access (addr >>> c.offset_bits)).1 ∧
    ((c.setAt (c.decompose addr).2).contains (c.decompose addr).1 = false →
      (addr >>> c.offset_bits) ∈ c.seen_blocks →
      (((c.access addr).2.2 = "MISS-Conflict" ↔
          (c.fa_sim.access (addr >>> c.offset_bits)).2 = true) ∧
       ((c.access addr).2.2 = "MISS-Capacity" ↔
          (c.fa_sim.access (addr >>> c.offset_bits)).2 = false))) := by
  refine ⟨?_, ?_, ?_⟩
  · obtain ⟨-, -, -, rfl⟩ := mkCache_ok cs bs a pol w c0 hok
    rfl
  · unfold Cache.access
    by_cases h1 : (c.setAt (c.decompose addr).2).contains (c.decompose addr).1 = true <;>
    by_cases h2 : (addr >>> c.offset_bits) ∈ c.seen_blocks <;>
    by_cases h3 : (c.fa_sim.access (addr >>> c.offset_bits)).2 = true <;>
    by_cases h4 : isLRUpol c.policy = true <;>
      simp [h1, h2, h3, h4]
  · intro hc hseen
    unfold Cache.access
    by_cases h3 : (c.fa_sim.access (addr >>> c.offset_bits)).2 = true <;>
      simp [hc, hseen, h3]

/-- Witness for C1: the oracle of the constructed 128/64 geometry holds
`128 / 64 = 2` blocks, and the concrete mid-run state `cacheW` (block 5 seen
and oracle-resident but absent from the real set) classifies its next access
as MISS-Conflict exactly because the oracle hits. -/
theorem c1_witness :
    cacheA.fa_sim = ⟨2, []⟩ ∧
    ((cacheW.access 5).2.2 = "MISS-Conflict" ↔
      (cacheW.fa_sim.access (5 >>> cacheW.offset_bits)).2 = true) := by
  refine ⟨(c1_conflict_iff_oracle_hit 128 64 1 "LRU" 32 cacheA cacheW 5 (by decide)).1, ?_⟩
  exact ((c1_conflict_iff_oracle_hit 128 64 1 "LRU" 32 cacheA cacheW 5 (by decide)).2.2
    (by decide) (by decide)).1

/-- Counterexample for C9: with the 128/64 geometry and `addr_bits = 32`,
`decompose` of `2 ^ 32` (not representable in 32 bits) does not agree with
`decompose` of the address masked to 32 bits (`2 ^ 32 % 2 ^ 32 = 0`), and
neither do the block ids: nothing in the code truncates the address to the
configured width. -/
theorem c9_counterexample :
    (ctorCache (mkCache 128 64 1 "LRU" 32)).map
      (fun c => decide (c.decompose (2 ^ 32) = c.decompose (2 ^ 32 % 2 ^ 32) ∧
                        2 ^ 32 >>> c.offset_bits = (2 ^ 32 % 2 ^ 32) >>> c.offset_bits))
      = some false := by
  rfl

/-- Claim C9 (amended): `decompose` performs no truncation to
`address_bit_width` — it computes tag, set index and block id from the full
64-bit address value, so the tag and block id of an out-of-width address
differ from those of the masked address (see the counterexample); the set
index, however, does agree with the masked address's set index whenever
`offset_bits + index_bits ≤ address_bit_width`. -/
theorem c9_amended (cs bs a : Nat) (pol : String) (w : Nat) (c : Cache) (addr : Nat)
    (hok : mkCache cs bs a pol w = CtorResult.ok c)
    (hbits : c.offset_bits + c.index_bits ≤ w) :
    (c.decompose addr).2 = (c.decompose (addr % 2 ^ w)).2 := by
  unfold Cache.decompose
  by_cases h : c.num_sets > 1
  · simp only [if_pos h]
    rw [Nat.shiftRight_eq_div_pow, Nat.shiftRight_eq_div_pow]
    have hw : (2 : Nat) ^ w = 2 ^ c.offset_bits * 2 ^ (w - c.offset_bits) := by
      rw [← pow_add]
      congr 1
      omega
    rw [hw, Nat.mod_mul_right_div_self,
      Nat.mod_mod_of_dvd _ (pow_dvd_pow 2 (by omega : c.index_bits ≤ w - c.offset_bits))]
  · simp only [if_neg h]

/-- Witness for C9 (amended): on the 128/64 geometry the set index of
`2 ^ 32 + 64` equals the set index of its value masked to 32 bits. -/
theorem c9_witness :
    (cacheA.decompose (2 ^ 32 + 64)).2 = (cacheA.decompose ((2 ^ 32 + 64) % 2 ^ 32)).2 :=
  c9_amended 128 64 1 "LRU" 32 cacheA (2 ^ 32 + 64) (by decide) (by decide)

/-- Claim C5 (code bug): constructing with `block_size = 0` does not raise
the configuration error — the member initializer `fa_sim((int)(cs / bs))`
divides by zero (C++ undefined behavior, typically a SIGFPE abort) before
the body's `block_size == 0` check can throw; the divisibility half of the
claim does behave as specified (a configuration error before any access). -/
theorem c5_code_behavior :
    mkCache 32768 0 4 "LRU" 32 =
      CtorResult.undefinedBehavior
        "division by zero: cache_size / block_size in the fa_sim member initializer" ∧
    mkCache 100 64 4 "LRU" 32 =
      CtorResult.configError "cache_size must be divisible by (block_size * assoc)" := by
  exact ⟨rfl, rfl⟩

/-- Claim C6 (code bug): `cache_size = 192`, `block_size = 64`,
`associativity = 1` yields `num_sets = 3` (greater than 1 and not a power of
two), yet construction succeeds instead of failing: `index_bits` becomes
`round(log2 3) = 2`, and decomposing address 192 produces set index 3, out
of range of the 3-entry `sets` vector (undefined behavior on the subsequent
`sets[idx]` access). -/
theorem c6_code_behavior :
    (ctorCache (mkCache 192 64 1 "LRU" 32)).map
      (fun c => (c.num_sets, c.index_bits, (c.decompose 192).2, c.sets.length))
      = some (3, 2, 3, 3) := by
  rfl

/-- Counterexample for C7: on the specified trace `[0,64,128,0,64,128]`
with `cache_size = 128`, `block_size = 64`, `associativity = 1`, the second
pass over the evicted address 0 (the 4th access, position 3) is NOT
classified MISS-Conflict. -/
theorem c7_counterexample :
    (ctorCache (mkCache 128 64 1 "LRU" 32)).map
      (fun c => ((c.run [0, 64, 128, 0, 64, 128]).2.getD 3 (true, "")).2 == "MISS-Conflict")
      = some false := by
  rfl

/-- Claim C7 (amended): on the trace `[0,64,128,0,64,128]` with the
128/64/1-way geometry, addresses 0 and 64 map to sets 0 and 1, address 128
aliases into set 0 and evicts address 0's line; but because the working set
(3 blocks) also exceeds the total capacity of the 2-block fully-associative
reference cache, the oracle misses too, so the second pass over 0 is a miss
classified MISS-Capacity (not MISS-Conflict), the reinsertion of 0 in turn
evicts 128's line making 128's second pass a MISS-Capacity as well, and only
64's second access remains a hit; final counters: 6 accesses, 1 hit, 5
misses = 3 compulsory + 0 conflict + 2 capacity. -/
theorem c7_amended :
    (ctorCache (mkCache 128 64 1 "LRU" 32)).map
      (fun c =>
        ((c.decompose 0).2, (c.decompose 64).2, (c.decompose 128).2,
         (c.run [0, 64, 128, 0, 64, 128]).2,
         ((c.run [0, 64, 128, 0, 64, 128]).1.accesses,
          (c.run [0, 64, 128, 0, 64, 128]).1.hits,
          (c.run [0, 64, 128, 0, 64, 128]).1.misses,
          (c.run [0, 64, 128, 0, 64, 128]).1.miss_compulsory,
          (c.run [0, 64, 128, 0, 64, 128]).1.miss_conflict,
          (c.run [0, 64, 128, 0, 64, 128]).1.miss_capacity)))
      = some (0, 1, 0,
          [(false, "MISS-Compulsory"), (false, "MISS-Compulsory"), (false, "MISS-Compulsory"),
           (false, "MISS-Capacity"), (true, "HIT"), (false, "MISS-Capacity")],
          (6, 1, 5, 3, 0, 2)) := by
  rfl

/-- Counterexample for C8: in a 2-way FIFO set, after accessing tags
1, 2, 3, 1, the next miss (inserting tag 4) does NOT evict tag 1 — tag 3's
access had already evicted tag 1, tag 1's re-access evicted tag 2, and the
miss on tag 4 evicts tag 3, leaving tag 1 resident; so the claim's 2-way
FIFO scenario ("the same sequence evicts A on the next miss") is false. -/
theorem c8_counterexample :
    (((SetState.mk 2 false []).simAccessList [1, 2, 3, 1]).insert 4).contains 1 = true := by
  rfl

/-- Claim C8 (amended): the scenario holds in a 3-way set (not a 2-way one,
where tag C's access already evicts A and both policies end in the same
state): after accessing distinct tags A, B, C, A, under LRU the next miss
(inserting a fresh tag D) evicts B while A survives (A was refreshed to
newest by its second access), while under FIFO the same miss evicts A and
keeps B (the repeated access to A does not reorder the set). -/
theorem c8_amended (A B C D : Nat) (hAB : A ≠ B) (hAC : A ≠ C) (hAD : A ≠ D)
    (hBC : B ≠ C) (hBD : B ≠ D) (hCD : C ≠ D) :
    (((SetState.mk 3 true []).simAccessList [A, B, C, A]).insert D).contains B = false ∧
    (((SetState.mk 3 true []).simAccessList [A, B, C, A]).insert D).contains A = true ∧
    (((SetState.mk 3 false []).simAccessList [A, B, C, A]).insert D).contains A = false ∧
    (((SetState.mk 3 false []).simAccessList [A, B, C, A]).insert D).contains B = true := by
  have eAB : (A == B) = false := beq_false_of_ne hAB
  have eBA : (B == A) = false := beq_false_of_ne hAB.symm
  have eAC : (A == C) = false := beq_false_of_ne hAC
  have eCA : (C == A) = false := beq_false_of_ne hAC.symm
  have eAD : (A == D) = false := beq_false_of_ne hAD
  have eDA : (D == A) = false := beq_false_of_ne hAD.symm
  have eBC : (B == C) = false := beq_false_of_ne hBC
  have eCB : (C == B) = false := beq_false_of_ne hBC.symm
  have eBD : (B == D) = false := beq_false_of_ne hBD
  have eDB : (D == B) = false := beq_false_of_ne hBD.symm
  have eCD : (C == D) = false := beq_false_of_ne hCD
  have eDC : (D == C) = false := beq_false_of_ne hCD.symm
  have nBA : B ≠ A := hAB.symm
  have nCA : C ≠ A := hAC.symm
  have nDA : D ≠ A := hAD.symm
  have nCB : C ≠ B := hBC.symm
  have nDB : D ≠ B := hBD.symm
  have nDC : D ≠ C := hCD.symm
  simp [SetState.simAccessList, SetState.simAccess, SetState.contains, SetState.insert,
    SetState.touch, List.contains, List.erase, eAB, eBA, eAC, eCA, eAD, eDA, eBC, eCB,
    eBD, eDB, eCD, eDC, hAB, hAC, hAD, hBC, hBD, hCD, nBA, nCA, nDA, nCB, nDB, nDC]

/-- Witness for C8 (amended): the concrete distinct tags 1, 2, 3, 4. -/
theorem c8_witness :
    (((SetState.mk 3 true []).simAccessList [1, 2, 3, 1]).insert 4).contains 2 = false ∧
    (((SetState.mk 3 true []).simAccessList [1, 2, 3, 1]).insert 4).contains 1 = true ∧
    (((SetState.mk 3 false []).simAccessList [1, 2, 3, 1]).insert 4).contains 1 = false ∧
    (((SetState.mk 3 false []).simAccessList [1, 2, 3, 1]).insert 4).contains 2 = true :=
  c8_amended 1 2 3 4 (by decide) (by decide) (by decide) (by decide) (by decide) (by decide)

theorem access_inv4 (c : Cache) (addr : Nat) (h : inv4 c) : inv4 (c.access addr).1 := by
  obtain ⟨hns, hib, hlen, hlru, hpol, hassoc, hcap, hord, hconf⟩ := h
  have hidx : (c.decompose addr).2 = 0 := by
    unfold Cache.decompose
    rw [hns]
    simp
  have htag : (c.decompose addr).1 = addr >>> c.offset_bits := by
    unfold Cache.decompose
    rw [hib]
    simp
  have h0lt : 0 < c.sets.length := by omega
  unfold Cache.access
  rw [htag, hidx]
  by_cases hcon : (c.setAt 0).contains (addr >>> c.offset_bits) = true
  · -- hit path: both the set and the oracle move the block to newest
    have hfc : c.fa_sim.order.contains (addr >>> c.offset_bits) = true := by
      unfold SetState.contains at hcon
      rw [hord] at hcon
      exact hcon
    simp only [hcon, if_true, hpol]
    refine ⟨hns, hib, ?_, ?_, hpol, ?_, ?_, ?_, hconf⟩
    · simp [List.length_set, hlen]
    · show ((c.sets.set 0 ((c.setAt 0).touch (addr >>> c.offset_bits))).getD 0 ⟨0, true, []⟩).isLRU = true
      rw [getD_set_self _ _ _ _ h0lt, touch_isLRU]
      exact hlru
    · show ((c.sets.set 0 ((c.setAt 0).touch (addr >>> c.offset_bits))).getD 0 ⟨0, true, []⟩).assoc
          = (c.fa_sim.access (addr >>> c.offset_bits)).1.capacity
      rw [getD_set_self _ _ _ _ h0lt, touch_assoc, fa_access_capacity]
      exact hassoc
    · rw [fa_access_capacity]
      exact hcap
    · show ((c.sets.set 0 ((c.setAt 0).touch (addr >>> c.offset_bits))).getD 0 ⟨0, true, []⟩).order
          = (c.fa_sim.access (addr >>> c.offset_bits)).1.order
      rw [getD_set_self _ _ _ _ h0lt, fa_access_hit hfc,
        touch_order_of_lru_contains hlru hcon, hord]
  · -- miss path: the oracle also misses, so the conflict branch is dead and
    -- both structures evict (or append) in lockstep
    have hconf' : (c.setAt 0).contains (addr >>> c.offset_bits) = false := by
      revert hcon
      cases (c.setAt 0).contains (addr >>> c.offset_bits) <;> simp
    have hfc : c.fa_sim.order.contains (addr >>> c.offset_bits) = false := by
      unfold SetState.contains at hconf'
      rw [hord] at hconf'
      exact hconf'
    have horder : ((c.setAt 0).insert (addr >>> c.offset_bits)).order
        = (c.fa_sim.access (addr >>> c.offset_bits)).1.order := by
      by_cases hlt : (c.setAt 0).order.length < (c.setAt 0).assoc
      · have hnocap : ¬ (c.fa_sim.capacity ≤ c.fa_sim.order.length ∧ 0 < c.fa_sim.capacity) := by
          rw [← hord, ← hassoc]
          omega
        rw [insert_order_append hconf' hlt, fa_access_miss_append hfc hnocap, hord]
      · have hcapc : c.fa_sim.capacity ≤ c.fa_sim.order.length ∧ 0 < c.fa_sim.capacity := by
          rw [← hord, ← hassoc]
          omega
        rw [insert_order_evict hconf' hlt, fa_access_miss_evict hfc hcapc, hord]
    have hfa2 : (c.fa_sim.access (addr >>> c.offset_bits)).2 = false := by
      by_cases hcapc : c.fa_sim.capacity ≤ c.fa_sim.order.length ∧ 0 < c.fa_sim.capacity
      · rw [fa_access_miss_evict hfc hcapc]
      · rw [fa_access_miss_append hfc hcapc]
    simp only [hcon, if_false, hfa2, Bool.false_eq_true]
    have key : ∀ r : Cache,
        r.num_sets = c.num_sets → r.index_bits = c.index_bits → r.policy = c.policy →
        r.sets = c.sets.set 0 ((c.setAt 0).insert (addr >>> c.offset_bits)) →
        r.fa_sim = (c.fa_sim.access (addr >>> c.offset_bits)).1 →
        r.miss_conflict = c.miss_conflict →
        inv4 r := by
      intro r e1 e2 e3 e4 e5 e6
      refine ⟨e1.trans hns, e2.trans hib, ?_, ?_, ?_, ?_, ?_, ?_, e6.trans hconf⟩
      · rw [e4, List.length_set]
        exact hlen
      · unfold Cache.setAt
        rw [e4, getD_set_self _ _ _ _ h0lt, insert_isLRU]
        exact hlru
      · rw [e3]
        exact hpol
      · unfold Cache.setAt
        rw [e4, e5, getD_set_self _ _ _ _ h0lt, insert_assoc, fa_access_capacity]
        exact hassoc
      · rw [e5, fa_access_capacity]
        exact hcap
      · unfold Cache.setAt
        rw [e4, e5, getD_set_self _ _ _ _ h0lt]
        exact horder
    by_cases hseen : (!c.seen_blocks.contains (addr >>> c.offset_bits)) = true
    · simp only [hseen, if_true]
      exact key _ rfl rfl rfl rfl rfl rfl
    · simp only [if_neg hseen]
      exact key _ rfl rfl rfl rfl rfl rfl

theorem run_inv4 (t : List Nat) : ∀ c : Cache, inv4 c → inv4 (c.run t).1 := by
  induction t with
  | nil => intro c h; exact h
  | cons a rest ih =>
    intro c h
    simp only [Cache.run]
    exact ih _ (access_inv4 c a h)

theorem mkCache_inv4 (cs bs a : Nat) (pol : String) (w : Nat) (c : Cache)
    (hok : mkCache cs bs a pol w = CtorResult.ok c)
    (hpol : isLRUpol pol = true) (hns1 : c.num_sets = 1) : inv4 c := by
  obtain ⟨hbs, ha, hmod, rfl⟩ := mkCache_ok cs bs a pol w c hok
  have hns : cs / (bs * a) = 1 := hns1
  have hcseq : cs = bs * a := by
    have hdm := Nat.div_add_mod cs (bs * a)
    rw [hns, hmod] at hdm
    omega
  have hcap : cs / bs = a := by
    rw [hcseq]
    exact Nat.mul_div_cancel_left a (Nat.pos_of_ne_zero hbs)
  refine ⟨hns1, ?_, ?_, ?_, hpol, ?_, ?_, ?_, rfl⟩
  · show (if cs / (bs * a) > 1 then roundLog2 (cs / (bs * a)) else 0) = 0
    rw [if_neg (by omega)]
  · show (List.replicate (cs / (bs * a)) (⟨a, isLRUpol pol, []⟩ : SetState)).length = 1
    rw [List.length_replicate, hns]
  · show ((List.replicate (cs / (bs * a)) (⟨a, isLRUpol pol, []⟩ : SetState)).getD 0
        ⟨0, true, []⟩).isLRU = true
    rw [getD_replicate, if_pos (by omega)]
    exact hpol
  · show ((List.replicate (cs / (bs * a)) (⟨a, isLRUpol pol, []⟩ : SetState)).getD 0
        ⟨0, true, []⟩).assoc = cs / bs
    rw [getD_replicate, if_pos (by omega)]
    exact hcap.symm
  · show 0 < cs / bs
    rw [hcap]
    exact Nat.pos_of_ne_zero ha
  · show ((List.replicate (cs / (bs * a)) (⟨a, isLRUpol pol, []⟩ : SetState)).getD 0
        ⟨0, true, []⟩).order = ([] : List Nat)
    rw [getD_replicate, if_pos (by omega)]

/-- Counterexample for C4: with `num_sets = 1` but the FIFO policy
(`cache_size` 2, `block_size` 1, 2-way) the trace `[0, 1, 0, 2, 0]` DOES
increment `miss_conflict`: the FIFO set diverges from the LRU oracle (the
hit on 0 reorders the oracle but not the set), so block 0 is evicted from
the set while still oracle-resident, and its final access is classified
MISS-Conflict. -/
theorem c4_counterexample :
    (ctorCache (mkCache 2 1 2 "FIFO" 32)).map
      (fun c => (c.num_sets, (c.run [0, 1, 0, 2, 0]).1.miss_conflict)) = some (1, 1) := by
  rfl

/-- Claim C4 (amended): when `num_sets = 1` AND the replacement policy is
LRU, the single set and the fully-associative reference cache evolve in
lockstep (same contents in the same order), so the oracle hits exactly when
the real cache hits and `miss_conflict` is never incremented; every
non-compulsory miss is then a capacity miss by the counter invariant.  Under
FIFO the property fails (see the counterexample). -/
theorem c4_amended (cs bs a : Nat) (pol : String) (w : Nat) (c : Cache) (t : List Nat)
    (hok : mkCache cs bs a pol w = CtorResult.ok c)
    (hpol : isLRUpol pol = true) (hns : c.num_sets = 1) :
    (c.run t).1.miss_conflict = 0 ∧
    ((c.run t).1.setAt 0).order = (c.run t).1.fa_sim.order := by
  have h := run_inv4 t c (mkCache_inv4 cs bs a pol w c hok hpol hns)
  exact ⟨h.2.2.2.2.2.2.2.2, h.2.2.2.2.2.2.2.1⟩

/-- Witness for C4 (amended): the single-set LRU geometry on the trace that
broke FIFO. -/
theorem c4_witness :
    (cacheB.run [0, 1, 0, 2, 0]).1.miss_conflict = 0 ∧
    ((cacheB.run [0, 1, 0, 2, 0]).1.setAt 0).order = (cacheB.run [0, 1, 0, 2, 0]).1.fa_sim.order :=
  c4_amended 2 1 2 "LRU" 32 cacheB [0, 1, 0, 2, 0] (by decide) (by decide) (by decide)
